import Mathlib

/-!
Shallow embedding of `src/main.py`: the `/process` upload pipeline
(`process_uploaded_files`) and the deferred output wipe (`clear_output_file`).

Modelling choices, all taken from the source:
* The filesystem state is the part of the disk the endpoint touches: the
  staged files under the `uploads` directory (a path-keyed association list
  of byte contents) and the content of the fixed `output.json` artifact.
* The two collaborators imported by `main.py` (`extract_text_from_document`
  from `document_parser` and `get_structured_data` from `processor`) are not
  part of `src/`; they are oracles carried in an environment, each either
  returning a value or failing, exactly as the `try` block treats them.
* Fault-injection points mirror the exception sources of the handler body:
  the staging write (`open`/`shutil.copyfileobj`), the two collaborators, the
  `output.json` write (`json.dump`), and the wipe's own write.  A staging
  failure is modelled at the point after the bytes reached the staged path
  (a `copyfileobj` failure leaving a file behind); the `finally` block then
  removes that file, so an `open`-failure that never creates the file leads
  to the same final state.
* Scheduling is recorded as an event trace.  FastAPI's `BackgroundTasks`
  contract (tasks added by the handler run after the response is sent) is
  part of the framework, not of `src/`; the request lifecycle events
  `sendResponse` / `runWipe` encode that contract.
* Structurer record values are modelled as strings; the pipeline itself only
  ever adds the string-valued `fileName` field and treats the rest opaquely.
-/

/-- Byte content of a file. -/
abbrev Bytes := List Nat

/-- A structured record returned by the AI structurer: field names to values
in insertion order, as a Python dict with string values. -/
abbrev Record := List (String × String)

/-- Python dict assignment `d[k] = v`: replaces the value at an existing key
in place (keeping its position), otherwise appends the new binding at the
end.  A real dict has unique keys; replacing every matching entry coincides
with that on such inputs. -/
def dictInsert (r : Record) (k v : String) : Record :=
  if r.any (fun p => p.1 = k) then
    r.map (fun p => if p.1 = k then (k, v) else p)
  else r ++ [(k, v)]

/-- Python dict lookup `d[k]` (first matching key). -/
def dictLookup (r : Record) (k : String) : Option String :=
  (r.find? (fun p => p.1 = k)).map Prod.snd

/-- One uploaded multipart file part: caller-supplied name and content. -/
structure UploadedFile where
  filename : String
  content : Bytes
deriving Repr, DecidableEq

/-- The on-disk state the endpoint touches: staged files (path to bytes)
and the content of the `output.json` artifact. -/
structure FS where
  uploads : List (String × Bytes)
  output : String
deriving Repr, DecidableEq

/-- Write (create or overwrite) a staged file at `p`. -/
def FS.writeUpload (fs : FS) (p : String) (c : Bytes) : FS :=
  { fs with uploads := (p, c) :: fs.uploads.filter (fun q => q.1 ≠ p) }

/-- Model of `os.remove` of a staged file (no-op when absent, as guarded by
`os.path.exists` in the source). -/
def FS.removeUpload (fs : FS) (p : String) : FS :=
  { fs with uploads := fs.uploads.filter (fun q => q.1 ≠ p) }

/-- Content of the staged file at `p`, when it exists. -/
def FS.lookup (fs : FS) (p : String) : Option Bytes :=
  (fs.uploads.find? (fun q => q.1 = p)).map Prod.snd

/-- Model of `os.path.join(dir, name)`: `name` wins outright when absolute (it
starts with a slash). -/
def joinPath (dir name : String) : String :=
  if ['/'].isPrefixOf name.data then name else dir ++ "/" ++ name

/-- The staging path `os.path.join("uploads", file.filename)`. -/
def stagedPath (f : UploadedFile) : String :=
  joinPath "uploads" f.filename

/-- Lowercase hexadecimal digit. -/
def hexDigit (n : Nat) : Char :=
  if n < 10 then Char.ofNat (48 + n) else Char.ofNat (87 + n)

/-- Four lowercase hex digits, as in a JSON `\uXXXX` escape. -/
def hex4 (n : Nat) : String :=
  String.mk [hexDigit (n / 4096 % 16), hexDigit (n / 256 % 16),
             hexDigit (n / 16 % 16), hexDigit (n % 16)]

/-- JSON string escaping as `json.dump` with `ensure_ascii=False` performs
it: quote, backslash and control characters escaped, everything else (ASCII
or not) passed through. -/
def jsonEscapeChar (c : Char) : String :=
  if c = '"' then "\\\""
  else if c = '\\' then "\\\\"
  else if c = '\n' then "\\n"
  else if c = '\t' then "\\t"
  else if c = '\r' then "\\r"
  else if c.toNat < 32 then "\\u" ++ hex4 c.toNat
  else String.singleton c

def jsonEscape (s : String) : String :=
  String.join (s.toList.map jsonEscapeChar)

/-- One `"key": "value"` member of a serialized record. -/
def serializeEntry (kv : String × String) : String :=
  "\"" ++ jsonEscape kv.1 ++ "\": \"" ++ jsonEscape kv.2 ++ "\""

/-- One record as `json.dump` prints it at nesting depth 1 with `indent=2`. -/
def serializeRecord (r : Record) : String :=
  match r with
  | [] => "\x7b\x7d"
  | _ => "\x7b\n" ++
      String.intercalate ",\n" (r.map (fun kv => "    " ++ serializeEntry kv)) ++
      "\n  \x7d"

/-- The batch as `json.dump(all_detailed_data, f, indent=2,
ensure_ascii=False)` writes it: `[]` for the empty batch, a pretty-printed
array otherwise. -/
def serializeBatch (rs : List Record) : String :=
  match rs with
  | [] => "[]"
  | _ => "[\n" ++
      String.intercalate ",\n" (rs.map (fun r => "  " ++ serializeRecord r)) ++
      "\n]"

/-- External collaborators and fault-injection points of one request.
`extract_text_from_document` consumes the bytes found at the staged path;
`get_structured_data` consumes the extracted text.  `stagingError` injects a
failure of the staging write for a given (filename, bytes); `persistError`
injects a failure of the `output.json` write; `wipeFails` makes the deferred
wipe's own write fail (caught inside `clear_output_file`). -/
structure Env where
  extract_text_from_document : Bytes → Except String String
  get_structured_data : String → Except String Record
  stagingError : String → Bytes → Option String
  persistError : Option String
  wipeFails : Bool

/-- Observable events of one request, in order of occurrence. -/
inductive Event where
  | stageFile (path : String)
  | deleteTemp (path : String)
  | persistOutput (content : String)
  | scheduleWipe
  | sendResponse
  | runWipe
deriving Repr, DecidableEq

/-- Events internal to the per-file loop. -/
def Event.isFileOp : Event → Bool
  | .stageFile _ => true
  | .deleteTemp _ => true
  | _ => false

/-- How one request ends: a `200` with the JSON list of records, a raised
`HTTPException` (status, detail), or an exception that escapes the handler
(FastAPI's generic 500 with no handler-built body). -/
inductive Outcome where
  | success (records : List Record)
  | httpError (status : Nat) (detail : String)
  | serverError (msg : String)
deriving Repr, DecidableEq

/-- The function `clear_output_file` (default and only used path `output.json`): wipes the
artifact by overwriting it with `[]`; its own failure is caught and logged,
leaving the state unchanged. -/
def clear_output_file (fs : FS) (fails : Bool) : FS :=
  if fails then fs else { fs with output := "[]" }

/-- One iteration of the `for file in files` loop: stage the bytes at
`uploads/<filename>` (overwriting any file already there), extract text from
the staged path, structure it, stamp `fileName`; the `finally` block closes
the upload stream and removes the staged file on every exit path. -/
def processOneFile (env : Env) (fs : FS) (f : UploadedFile) :
    FS × List Event × Except String Record :=
  let path := stagedPath f
  let fs1 := fs.writeUpload path f.content
  let ev := [Event.stageFile path, Event.deleteTemp path]
  match env.stagingError f.filename f.content with
  | some e => (fs1.removeUpload path, ev, .error e)
  | none =>
    match fs1.lookup path with
    | none => (fs1.removeUpload path, ev, .error "staged file missing")
    | some bytes =>
      match env.extract_text_from_document bytes with
      | .error e => (fs1.removeUpload path, ev, .error e)
      | .ok rawText =>
        match env.get_structured_data rawText with
        | .error e => (fs1.removeUpload path, ev, .error e)
        | .ok data =>
          (fs1.removeUpload path, ev, .ok (dictInsert data "fileName" f.filename))

/-- The whole `for` loop with its fail-fast policy: the first failing file
turns into `HTTPException(500, f"Error while processing \x7bfile.filename\x7d: \x7be\x7d")`
and no further file is touched. -/
def processLoop (env : Env) (fs : FS) : List UploadedFile →
    FS × List Event × Except String (List Record)
  | [] => (fs, [], .ok [])
  | f :: rest =>
    match processOneFile env fs f with
    | (fs1, ev1, .error e) =>
      (fs1, ev1, .error ("Error while processing " ++ f.filename ++ ": " ++ e))
    | (fs1, ev1, .ok rec) =>
      match processLoop env fs1 rest with
      | (fs2, ev2, .ok recs) => (fs2, ev1 ++ ev2, .ok (rec :: recs))
      | (fs2, ev2, .error d) => (fs2, ev1 ++ ev2, .error d)

/-- Result of one full request: final disk state, event trace, outcome. -/
structure RequestResult where
  fs : FS
  trace : List Event
  outcome : Outcome
deriving Repr, DecidableEq

/-- The endpoint `process_uploaded_files` plus the framework part of its lifecycle.  On a
loop failure the `HTTPException` is turned into the error response; no
background task was added, so none runs.  On loop success `output.json` is
written (a failure there escapes the handler before `add_task`); on a
successful write the wipe is scheduled, the response is sent, and the wipe
task then runs. -/
def handleRequest (env : Env) (fs : FS) (files : List UploadedFile) :
    RequestResult :=
  match processLoop env fs files with
  | (fs1, ev, .error d) =>
    ⟨fs1, ev ++ [.sendResponse], .httpError 500 d⟩
  | (fs1, ev, .ok recs) =>
    match env.persistError with
    | some e => ⟨fs1, ev ++ [.sendResponse], .serverError e⟩
    | none =>
      let body := serializeBatch recs
      let fs2 := { fs1 with output := body }
      let fs3 := clear_output_file fs2 env.wipeFails
      ⟨fs3, ev ++ [.persistOutput body, .scheduleWipe, .sendResponse, .runWipe],
        .success recs⟩

/-- Whether (and how) a given file fails its stage/extract/structure steps;
the loop's behaviour on a file is a function of this alone, because
extraction always reads the bytes the file itself just staged. -/
def fileFailure (env : Env) (f : UploadedFile) : Option String :=
  match env.stagingError f.filename f.content with
  | some e => some e
  | none =>
    match env.extract_text_from_document f.content with
    | .error e => some e
    | .ok t =>
      match env.get_structured_data t with
      | .error e => some e
      | .ok _ => none

/-- The record the pipeline produces for a file that succeeds: the
structurer's output for the file's own extracted text, with `fileName`
stamped over any field of that name. -/
def expectedRecord (env : Env) (f : UploadedFile) : Record :=
  match env.extract_text_from_document f.content with
  | .error _ => []
  | .ok t =>
    match env.get_structured_data t with
    | .error _ => []
    | .ok r => dictInsert r "fileName" f.filename

/-- The stage/delete event pairs of a list of files, in order. -/
def stageEvents : List UploadedFile → List Event
  | [] => []
  | g :: rest =>
    .stageFile (stagedPath g) :: .deleteTemp (stagedPath g) :: stageEvents rest

/-! ### Basic lemmas about the filesystem model -/

theorem FS.output_writeUpload (fs : FS) (p : String) (c : Bytes) :
    (fs.writeUpload p c).output = fs.output := rfl

theorem FS.output_removeUpload (fs : FS) (p : String) :
    (fs.removeUpload p).output = fs.output := rfl

theorem FS.lookup_writeUpload_self (fs : FS) (p : String) (c : Bytes) :
    (fs.writeUpload p c).lookup p = some c := by
  simp [FS.writeUpload, FS.lookup, List.find?_cons_of_pos]

theorem FS.writeUpload_removeUpload (fs : FS) (p : String) (c : Bytes) :
    (fs.writeUpload p c).removeUpload p = fs.removeUpload p := by
  simp [FS.writeUpload, FS.removeUpload, List.filter_cons, List.filter_filter]

theorem FS.lookup_removeUpload_self (fs : FS) (p : String) :
    (fs.removeUpload p).lookup p = none := by
  simp only [FS.removeUpload, FS.lookup]
  rw [List.find?_eq_none.mpr]
  · rfl
  · intro x hx
    rcases List.mem_filter.mp hx with ⟨-, hne⟩
    simpa using (by simpa using hne : x.1 ≠ p)

/-- A `find?` commutes with a `filter` whose predicate is implied by the
searched-for one. -/
theorem find?_filter_of_imp {α : Type} (P Q : α → Bool) (l : List α)
    (hPQ : ∀ a, P a = true → Q a = true) :
    (l.filter Q).find? P = l.find? P := by
  induction l with
  | nil => rfl
  | cons a l ih =>
    rw [List.filter_cons]
    by_cases hQ : Q a = true
    · rw [if_pos hQ]
      by_cases hP : P a = true
      · rw [List.find?_cons_of_pos _ hP, List.find?_cons_of_pos _ hP]
      · rw [List.find?_cons_of_neg _ hP, List.find?_cons_of_neg _ hP, ih]
    · have hP : ¬ P a = true := fun hc => hQ (hPQ a hc)
      rw [if_neg hQ, List.find?_cons_of_neg _ hP, ih]

theorem FS.lookup_removeUpload_ne (fs : FS) (p q : String) (h : p ≠ q) :
    (fs.removeUpload q).lookup p = fs.lookup p := by
  simp only [FS.removeUpload, FS.lookup]
  rw [find?_filter_of_imp]
  intro a ha
  have hap : a.1 = p := by simpa using ha
  simpa [hap] using h

/-! ### Lemmas about dict update -/

theorem find?_map_stamp (l : Record) (k v : String)
    (h : l.any (fun p => p.1 = k) = true) :
    (l.map (fun p => if p.1 = k then (k, v) else p)).find?
      (fun p => p.1 = k) = some (k, v) := by
  induction l with
  | nil => simp at h
  | cons a l ih =>
    rw [List.map_cons]
    by_cases ha : a.1 = k
    · rw [if_pos ha, List.find?_cons_of_pos _ (by simp)]
    · rw [if_neg ha, List.find?_cons_of_neg _ (by simpa using ha)]
      exact ih (by simpa [ha] using h)

theorem dictLookup_dictInsert_self (r : Record) (k v : String) :
    dictLookup (dictInsert r k v) k = some v := by
  unfold dictInsert dictLookup
  by_cases h : r.any (fun p => p.1 = k)
  · rw [if_pos h, find?_map_stamp r k v h]
    rfl
  · have hnone : (r.find? fun p => decide (p.1 = k)) = none :=
      List.find?_eq_none.mpr fun x hx hc => h (List.any_eq_true.mpr ⟨x, hx, hc⟩)
    rw [if_neg h, List.find?_append, hnone, Option.none_or]
    simp

theorem snd_of_mem_dictInsert (r : Record) (k v : String) :
    ∀ p ∈ dictInsert r k v, p.1 = k → p.2 = v := by
  intro p hp hk
  unfold dictInsert at hp
  by_cases h : r.any (fun p => p.1 = k)
  · rw [if_pos h] at hp
    rcases List.mem_map.mp hp with ⟨q, -, rfl⟩
    by_cases hq : q.1 = k
    · rw [if_pos hq]
    · rw [if_neg hq] at hk
      exact absurd hk hq
  · rw [if_neg h] at hp
    rcases List.mem_append.mp hp with hmem | hmem
    · exact absurd (List.any_eq_true.mpr ⟨p, hmem, by simpa using hk⟩) h
    · rw [List.mem_singleton] at hmem
      rw [hmem]

/-! ### Characterization of the per-file step and the loop -/

/-- The per-file step in closed form: the staged file is written and then
removed again on every path, the two lifecycle events are emitted, and the
result is governed by `fileFailure` (extraction always reads exactly the
bytes this file just staged). -/
theorem processOneFile_eq (env : Env) (fs : FS) (f : UploadedFile) :
    processOneFile env fs f =
      (fs.removeUpload (stagedPath f),
       [Event.stageFile (stagedPath f), Event.deleteTemp (stagedPath f)],
       match fileFailure env f with
       | some e => .error e
       | none => .ok (expectedRecord env f)) := by
  simp only [processOneFile, fileFailure, expectedRecord, FS.lookup_writeUpload_self]
  cases hs : env.stagingError f.filename f.content with
  | some e => simp [hs, FS.writeUpload_removeUpload]
  | none =>
    cases he : env.extract_text_from_document f.content with
    | error e => simp [hs, he, FS.writeUpload_removeUpload]
    | ok t =>
      cases hg : env.get_structured_data t with
      | error e => simp [hs, he, hg, FS.writeUpload_removeUpload]
      | ok r => simp [hs, he, hg, FS.writeUpload_removeUpload]

/-- The loop never touches `output.json`. -/
theorem processLoop_output (env : Env) (files : List UploadedFile) :
    ∀ fs : FS, (processLoop env fs files).1.output = fs.output := by
  induction files with
  | nil => intro fs; rfl
  | cons f rest ih =>
    intro fs
    simp only [processLoop, processOneFile_eq]
    cases hff : fileFailure env f with
    | some e => simp [FS.output_removeUpload]
    | none =>
      rcases hrec : processLoop env (fs.removeUpload (stagedPath f)) rest with
        ⟨fs2, ev2, res2⟩
      have hout : fs2.output = fs.output := by
        have := ih (fs.removeUpload (stagedPath f))
        rw [hrec] at this
        simpa [FS.output_removeUpload] using this
      cases res2 with
      | ok recs => simp [hrec, hout]
      | error d => simp [hrec, hout]

/-- The loop's trace holds only stage/delete events. -/
theorem processLoop_trace_fileOps (env : Env) (files : List UploadedFile) :
    ∀ fs : FS, ((processLoop env fs files).2.1.all Event.isFileOp) = true := by
  induction files with
  | nil => intro fs; rfl
  | cons f rest ih =>
    intro fs
    simp only [processLoop, processOneFile_eq]
    cases hff : fileFailure env f with
    | some e => simp [Event.isFileOp]
    | none =>
      rcases hrec : processLoop env (fs.removeUpload (stagedPath f)) rest with
        ⟨fs2, ev2, res2⟩
      have hall : ev2.all Event.isFileOp = true := by
        have := ih (fs.removeUpload (stagedPath f))
        rw [hrec] at this
        simpa using this
      cases res2 with
      | ok recs => simp [hrec, Event.isFileOp, List.all_append, hall]
      | error d => simp [hrec, Event.isFileOp, List.all_append, hall]

/-- When every file succeeds, the loop returns one record per file in input
order and its trace is exactly the stage/delete pairs of the input files. -/
theorem processLoop_ok (env : Env) (files : List UploadedFile)
    (h : ∀ f ∈ files, fileFailure env f = none) :
    ∀ fs : FS,
      (processLoop env fs files).2.2 = .ok (files.map (expectedRecord env)) ∧
      (processLoop env fs files).2.1 = stageEvents files := by
  induction files with
  | nil => intro fs; exact ⟨rfl, rfl⟩
  | cons f rest ih =>
    intro fs
    have hf : fileFailure env f = none := h f (by simp)
    have hrest : ∀ g ∈ rest, fileFailure env g = none :=
      fun g hg => h g (by simp [hg])
    simp only [processLoop, processOneFile_eq, hf]
    rcases hrec : processLoop env (fs.removeUpload (stagedPath f)) rest with
      ⟨fs2, ev2, res2⟩
    have hih := ih hrest (fs.removeUpload (stagedPath f))
    rw [hrec] at hih
    rcases hih with ⟨hres, hev⟩
    simp only at hres hev
    subst hres hev
    simp [stageEvents]

/-- When the files before `f` all succeed and `f` fails, the loop aborts at
`f`: the error names `f` and carries the cause, and the trace stops with
`f`'s stage/delete pair (no later file is touched). -/
theorem processLoop_fail (env : Env) (pre : List UploadedFile)
    (f : UploadedFile) (post : List UploadedFile) (e : String)
    (hpre : ∀ g ∈ pre, fileFailure env g = none)
    (hf : fileFailure env f = some e) :
    ∀ fs : FS,
      (processLoop env fs (pre ++ f :: post)).2.2 =
        .error ("Error while processing " ++ f.filename ++ ": " ++ e) ∧
      (processLoop env fs (pre ++ f :: post)).2.1 =
        stageEvents (pre ++ [f]) := by
  induction pre with
  | nil =>
    intro fs
    simp only [List.nil_append, processLoop, processOneFile_eq, hf]
    simp [stageEvents]
  | cons g pre ih =>
    intro fs
    have hg : fileFailure env g = none := hpre g (by simp)
    have hpre' : ∀ g' ∈ pre, fileFailure env g' = none :=
      fun g' hg' => hpre g' (by simp [hg'])
    simp only [List.cons_append, processLoop, processOneFile_eq, hg]
    rcases hrec : processLoop env (fs.removeUpload (stagedPath g)) (pre ++ f :: post)
      with ⟨fs2, ev2, res2⟩
    have hih := ih hpre' (fs.removeUpload (stagedPath g))
    rw [hrec] at hih
    rcases hih with ⟨hres, hev⟩
    simp only at hres hev
    subst hev
    cases res2 with
    | ok recs => exact absurd hres (by simp)
    | error d =>
      simp only [Except.error.injEq] at hres
      subst hres
      simp [stageEvents]

/-- A path never staged during the loop keeps its prior content. -/
theorem processLoop_lookup_not_staged (env : Env) (files : List UploadedFile)
    (p : String) :
    ∀ fs : FS, Event.stageFile p ∉ (processLoop env fs files).2.1 →
      (processLoop env fs files).1.lookup p = fs.lookup p := by
  induction files with
  | nil => intro fs _; rfl
  | cons f rest ih =>
    intro fs hns
    simp only [processLoop, processOneFile_eq] at hns ⊢
    cases hff : fileFailure env f with
    | some e =>
      simp only [hff] at hns ⊢
      have hne : p ≠ stagedPath f := by
        intro hc; exact hns (by simp [hc])
      simp [FS.lookup_removeUpload_ne _ _ _ hne]
    | none =>
      simp only [hff] at hns ⊢
      rcases hrec : processLoop env (fs.removeUpload (stagedPath f)) rest with
        ⟨fs2, ev2, res2⟩
      rw [hrec] at hns
      have hns2 : Event.stageFile p ∉ ev2 := by
        cases res2 <;> simp at hns <;> tauto
      have hne : p ≠ stagedPath f := by
        intro hc
        cases res2 <;> simp [hc] at hns
      have := ih (fs.removeUpload (stagedPath f)) (by rw [hrec]; exact hns2)
      rw [hrec] at this
      cases res2 <;>
        simpa [FS.lookup_removeUpload_ne _ _ _ hne] using this

/-- Every path staged during the loop is gone when the loop ends. -/
theorem processLoop_lookup_staged (env : Env) (files : List UploadedFile)
    (p : String) :
    ∀ fs : FS, Event.stageFile p ∈ (processLoop env fs files).2.1 →
      (processLoop env fs files).1.lookup p = none := by
  induction files with
  | nil => intro fs h; simp [processLoop] at h
  | cons f rest ih =>
    intro fs hmem
    simp only [processLoop, processOneFile_eq] at hmem ⊢
    cases hff : fileFailure env f with
    | some e =>
      simp only [hff] at hmem ⊢
      have : p = stagedPath f := by simpa using hmem
      simp [this, FS.lookup_removeUpload_self]
    | none =>
      simp only [hff] at hmem ⊢
      rcases hrec : processLoop env (fs.removeUpload (stagedPath f)) rest with
        ⟨fs2, ev2, res2⟩
      rw [hrec] at hmem
      by_cases h2 : Event.stageFile p ∈ ev2
      · have := ih (fs.removeUpload (stagedPath f)) (by rw [hrec]; exact h2)
        rw [hrec] at this
        cases res2 <;> simpa using this
      · have hp : p = stagedPath f := by
          cases res2 <;> simp [h2] at hmem <;> tauto
        have hn := processLoop_lookup_not_staged env rest p
          (fs.removeUpload (stagedPath f)) (by rw [hrec]; exact h2)
        rw [hrec] at hn
        cases res2 <;>
          simpa [hp, hn, FS.lookup_removeUpload_self] using hn

/-- Some file failing means the whole loop fails. -/
theorem processLoop_error_of_exists (env : Env) (files : List UploadedFile)
    (h : ∃ f ∈ files, fileFailure env f ≠ none) :
    ∀ fs : FS, ∃ d, (processLoop env fs files).2.2 = .error d := by
  induction files with
  | nil => simp at h
  | cons f rest ih =>
    intro fs
    simp only [processLoop, processOneFile_eq]
    cases hff : fileFailure env f with
    | some e =>
      exact ⟨"Error while processing " ++ f.filename ++ ": " ++ e, by simp [hff]⟩
    | none =>
      have hrest : ∃ g ∈ rest, fileFailure env g ≠ none := by
        rcases h with ⟨g, hg, hgf⟩
        rcases List.mem_cons.mp hg with rfl | hg'
        · exact absurd hff hgf
        · exact ⟨g, hg', hgf⟩
      rcases hrec : processLoop env (fs.removeUpload (stagedPath f)) rest with
        ⟨fs2, ev2, res2⟩
      rcases ih hrest (fs.removeUpload (stagedPath f)) with ⟨d, hd⟩
      rw [hrec] at hd
      simp only at hd
      subst hd
      exact ⟨d, by simp [hrec]⟩

/-! ### Bridge lemmas -/

theorem lookup_clear_output_file (fs : FS) (b : Bool) (p : String) :
    (clear_output_file fs b).lookup p = fs.lookup p := by
  cases b <;> simp [clear_output_file, FS.lookup]

theorem dictLookup_expectedRecord (env : Env) (f : UploadedFile)
    (h : fileFailure env f = none) :
    dictLookup (expectedRecord env f) "fileName" = some f.filename := by
  unfold fileFailure at h
  unfold expectedRecord
  cases hs : env.stagingError f.filename f.content with
  | some e => simp [hs] at h
  | none =>
    cases he : env.extract_text_from_document f.content with
    | error e => simp [hs, he] at h
    | ok t =>
      cases hg : env.get_structured_data t with
      | error e => simp [hs, he, hg] at h
      | ok r => simp [he, hg, dictLookup_dictInsert_self]

theorem snd_of_mem_expectedRecord (env : Env) (f : UploadedFile)
    (h : fileFailure env f = none) :
    ∀ q ∈ expectedRecord env f, q.1 = "fileName" → q.2 = f.filename := by
  unfold fileFailure at h
  unfold expectedRecord
  cases hs : env.stagingError f.filename f.content with
  | some e => simp [hs] at h
  | none =>
    cases he : env.extract_text_from_document f.content with
    | error e => simp [hs, he] at h
    | ok t =>
      cases hg : env.get_structured_data t with
      | error e => simp [hs, he, hg] at h
      | ok r => simpa [he, hg] using snd_of_mem_dictInsert r "fileName" f.filename

/-! ### The claims -/

/-- Claim C1: for a non-empty batch in which every file's staging, extraction
and structuring succeed (and the `output.json` write itself does not fail),
the response is a `200` whose body has one record per input file, in input
order, and the record at each position carries `fileName` equal to the name
of the input file at that position. -/
theorem claim_C1_success_batch (env : Env) (fs : FS)
    (files : List UploadedFile) (_hne : files ≠ [])
    (hok : ∀ f ∈ files, fileFailure env f = none)
    (hp : env.persistError = none) :
    (handleRequest env fs files).outcome =
      .success (files.map (expectedRecord env)) ∧
    (files.map (expectedRecord env)).length = files.length ∧
    ∀ i (h : i < files.length),
      dictLookup (expectedRecord env (files.get ⟨i, h⟩)) "fileName" =
        some (files.get ⟨i, h⟩).filename := by
  obtain ⟨hres, hev⟩ := processLoop_ok env files hok fs
  refine ⟨?_, by simp, ?_⟩
  · unfold handleRequest
    rcases hrec : processLoop env fs files with ⟨fs1, ev, res⟩
    rw [hrec] at hres
    simp only at hres
    subst hres
    simp [hp]
  · intro i h
    exact dictLookup_expectedRecord env _ (hok _ (files.get_mem i h))

/-- Claim C6: an empty batch yields a `200` with the empty sequence, and the
OutputArtifact is written as the empty JSON array `[]` (and still reads `[]`
after the request, wiped or not). -/
theorem claim_C6_empty_batch (env : Env) (fs : FS)
    (hp : env.persistError = none) :
    (handleRequest env fs []).outcome = .success [] ∧
    Event.persistOutput "[]" ∈ (handleRequest env fs []).trace ∧
    (handleRequest env fs []).fs.output = "[]" := by
  cases hw : env.wipeFails <;>
    simp [handleRequest, processLoop, hp, serializeBatch, clear_output_file, hw]

/-- Claim C8: the wipe is idempotent: after one (successful) wipe the
artifact reads `[]`, after a second it still reads `[]`, and the second wipe
changes nothing at all. -/
theorem claim_C8_wipe_idempotent (fs : FS) :
    (clear_output_file fs false).output = "[]" ∧
    (clear_output_file (clear_output_file fs false) false).output = "[]" ∧
    clear_output_file (clear_output_file fs false) false =
      clear_output_file fs false := by
  simp [clear_output_file]

/-- Claim C9: whatever record the structurer returns — even one already
containing a `fileName` field — the pipeline overwrites that field with the
uploaded file's name, so a structurer-supplied `fileName` value never
survives into the produced record. -/
theorem claim_C9_fileName_overwritten (env : Env) (fs : FS)
    (f : UploadedFile) (fs' : FS) (ev : List Event) (r : Record)
    (h : processOneFile env fs f = (fs', ev, .ok r)) :
    dictLookup r "fileName" = some f.filename ∧
    ∀ q ∈ r, q.1 = "fileName" → q.2 = f.filename := by
  rw [processOneFile_eq] at h
  cases hff : fileFailure env f with
  | some e => rw [hff] at h; simp at h
  | none =>
    rw [hff] at h
    have hr : r = expectedRecord env f := by
      have := congrArg (fun x => x.2.2) h
      simpa using this.symm
    subst hr
    exact ⟨dictLookup_expectedRecord env f hff, snd_of_mem_expectedRecord env f hff⟩

/-- Claim C2: whatever happens to the batch (success, or a staging,
extraction or structuring failure at any file), every temporary staging file
created during the call is gone from disk when the request ends. -/
theorem claim_C2_temp_files_deleted (env : Env) (fs : FS)
    (files : List UploadedFile) (p : String)
    (h : Event.stageFile p ∈ (handleRequest env fs files).trace) :
    (handleRequest env fs files).fs.lookup p = none := by
  have hstaged := processLoop_lookup_staged env files p fs
  unfold handleRequest at h ⊢
  rcases hrec : processLoop env fs files with ⟨fs1, ev, res⟩
  rw [hrec] at h hstaged
  simp only at hstaged
  cases res with
  | error d =>
    simp only at h
    have hm : Event.stageFile p ∈ ev := by
      rcases List.mem_append.mp h with hm | hm
      · exact hm
      · simp at hm
    simpa using hstaged hm
  | ok recs =>
    cases hp : env.persistError with
    | some e =>
      simp only [hp] at h ⊢
      have hm : Event.stageFile p ∈ ev := by
        rcases List.mem_append.mp h with hm | hm
        · exact hm
        · simp at hm
      simpa using hstaged hm
    | none =>
      simp only [hp] at h ⊢
      have hm : Event.stageFile p ∈ ev := by
        rcases List.mem_append.mp h with hm | hm
        · exact hm
        · simp at hm
      simp only [lookup_clear_output_file]
      have : fs1.lookup p = none := hstaged hm
      simpa [FS.lookup] using this

/-- Claim C3: when the files before `f` all succeed and `f` is the first
file to fail (staging, extraction or structuring), the whole batch aborts:
the outcome is a 500 whose detail names `f` and carries the underlying
cause, no record of the earlier files is returned (the outcome is not a
`success`), and no file after `f` is ever staged — the trace stops with
`f`'s stage/delete pair and holds no persist, schedule or wipe event. -/
theorem claim_C3_fail_fast (env : Env) (fs : FS) (pre : List UploadedFile)
    (f : UploadedFile) (post : List UploadedFile) (e : String)
    (hpre : ∀ g ∈ pre, fileFailure env g = none)
    (hf : fileFailure env f = some e) :
    (handleRequest env fs (pre ++ f :: post)).outcome =
      .httpError 500 ("Error while processing " ++ f.filename ++ ": " ++ e) ∧
    (handleRequest env fs (pre ++ f :: post)).trace =
      stageEvents (pre ++ [f]) ++ [.sendResponse] := by
  obtain ⟨hres, hev⟩ := processLoop_fail env pre f post e hpre hf fs
  unfold handleRequest
  rcases hrec : processLoop env fs (pre ++ f :: post) with ⟨fs1, ev, res⟩
  rw [hrec] at hres hev
  simp only at hres hev
  subst hev
  cases res with
  | ok recs => simp at hres
  | error d =>
    simp only [Except.error.injEq] at hres
    subst hres
    exact ⟨rfl, rfl⟩

/-- Claim C4: when some file of the batch fails, the call leaves
`output.json` exactly as it was and emits no persist event at all. -/
theorem claim_C4_output_untouched_on_failure (env : Env) (fs : FS)
    (files : List UploadedFile)
    (h : ∃ f ∈ files, fileFailure env f ≠ none) :
    (handleRequest env fs files).fs.output = fs.output ∧
    ∀ s, Event.persistOutput s ∉ (handleRequest env fs files).trace := by
  rcases processLoop_error_of_exists env files h fs with ⟨d, hd⟩
  have hout := processLoop_output env files fs
  have hall := processLoop_trace_fileOps env files fs
  unfold handleRequest
  rcases hrec : processLoop env fs files with ⟨fs1, ev, res⟩
  rw [hrec] at hd hout hall
  simp only at hd hout hall
  subst hd
  refine ⟨hout, ?_⟩
  intro s hs
  have hm : Event.persistOutput s ∈ ev := by simpa using hs
  have := List.all_eq_true.mp hall _ hm
  simp [Event.isFileOp] at this

/-- Claim C5: exactly the successful batches persist and wipe.  On a
successful request the trace ends with the serialized batch being persisted,
the wipe being scheduled strictly after the persist, the response being sent,
and only then the wipe running; everything before that is per-file staging
work.  On any non-successful request no persist, no wipe scheduling and no
wipe run ever happen. -/
theorem claim_C5_persist_then_respond_then_wipe (env : Env) (fs : FS)
    (files : List UploadedFile) :
    (∀ recs, (handleRequest env fs files).outcome = .success recs →
      ∃ pre, (handleRequest env fs files).trace =
          pre ++ [.persistOutput (serializeBatch recs), .scheduleWipe,
            .sendResponse, .runWipe] ∧
        pre.all Event.isFileOp = true) ∧
    ((∀ recs, (handleRequest env fs files).outcome ≠ .success recs) →
      (∀ s, Event.persistOutput s ∉ (handleRequest env fs files).trace) ∧
      Event.scheduleWipe ∉ (handleRequest env fs files).trace ∧
      Event.runWipe ∉ (handleRequest env fs files).trace) := by
  have hall := processLoop_trace_fileOps env files fs
  unfold handleRequest
  rcases hrec : processLoop env fs files with ⟨fs1, ev, res⟩
  rw [hrec] at hall
  simp only at hall
  cases res with
  | error d =>
    constructor
    · intro recs h
      simp at h
    · intro _
      refine ⟨?_, ?_, ?_⟩
      · intro s hs
        have hm : Event.persistOutput s ∈ ev := by simpa using hs
        have := List.all_eq_true.mp hall _ hm
        simp [Event.isFileOp] at this
      · intro hs
        have hm : Event.scheduleWipe ∈ ev := by simpa using hs
        have := List.all_eq_true.mp hall _ hm
        simp [Event.isFileOp] at this
      · intro hs
        have hm : Event.runWipe ∈ ev := by simpa using hs
        have := List.all_eq_true.mp hall _ hm
        simp [Event.isFileOp] at this
  | ok recs0 =>
    cases hp : env.persistError with
    | some e =>
      constructor
      · intro recs h
        simp [hp] at h
      · intro _
        refine ⟨?_, ?_, ?_⟩
        · intro s hs
          have hm : Event.persistOutput s ∈ ev := by simpa [hp] using hs
          have := List.all_eq_true.mp hall _ hm
          simp [Event.isFileOp] at this
        · intro hs
          have hm : Event.scheduleWipe ∈ ev := by simpa [hp] using hs
          have := List.all_eq_true.mp hall _ hm
          simp [Event.isFileOp] at this
        · intro hs
          have hm : Event.runWipe ∈ ev := by simpa [hp] using hs
          have := List.all_eq_true.mp hall _ hm
          simp [Event.isFileOp] at this
    | none =>
      constructor
      · intro recs h
        simp only [hp, Outcome.success.injEq] at h
        subst h
        exact ⟨ev, by simp [hp], hall⟩
      · intro hno
        exact absurd (by simp [hp] : _ = Outcome.success recs0) (hno recs0)

/-- Claim C10: when every file processes successfully but writing
`output.json` fails, the exception escapes the handler before the wipe task
is added: the outcome is the raw persistence error (no per-file
`Error while processing` wrapping, no handler-built body), nothing is
persisted, and no wipe is scheduled or run. -/
theorem claim_C10_persist_failure (env : Env) (fs : FS)
    (files : List UploadedFile) (e : String)
    (hok : ∀ f ∈ files, fileFailure env f = none)
    (hp : env.persistError = some e) :
    (handleRequest env fs files).outcome = .serverError e ∧
    (∀ s, Event.persistOutput s ∉ (handleRequest env fs files).trace) ∧
    Event.scheduleWipe ∉ (handleRequest env fs files).trace ∧
    Event.runWipe ∉ (handleRequest env fs files).trace := by
  obtain ⟨hres, -⟩ := processLoop_ok env files hok fs
  have hall := processLoop_trace_fileOps env files fs
  unfold handleRequest
  rcases hrec : processLoop env fs files with ⟨fs1, ev, res⟩
  rw [hrec] at hres hall
  simp only at hres hall
  subst hres
  refine ⟨by simp [hp], ?_, ?_, ?_⟩
  · intro s hs
    have hm : Event.persistOutput s ∈ ev := by simpa [hp] using hs
    have := List.all_eq_true.mp hall _ hm
    simp [Event.isFileOp] at this
  · intro hs
    have hm : Event.scheduleWipe ∈ ev := by simpa [hp] using hs
    have := List.all_eq_true.mp hall _ hm
    simp [Event.isFileOp] at this
  · intro hs
    have hm : Event.runWipe ∈ ev := by simpa [hp] using hs
    have := List.all_eq_true.mp hall _ hm
    simp [Event.isFileOp] at this

/-! ### Concrete instances -/

/-- A fully healthy environment whose extractor returns the staged bytes
verbatim (as their printed form) and whose structurer wraps the text in a
single-field record, so the produced records expose exactly which bytes each
extraction consumed. -/
def envOK : Env where
  extract_text_from_document := fun bs => .ok (toString bs)
  get_structured_data := fun t => .ok [("text", t)]
  stagingError := fun _ _ => none
  persistError := none
  wipeFails := false

/-- Like `envOK`, except staging the file named `bad.pdf` fails with `boom`. -/
def envFail : Env :=
  { envOK with
    stagingError := fun name _ => if name = "bad.pdf" then some "boom" else none }

/-- Like `envOK`, except the structurer already puts a `fileName` field of its
own into every record. -/
def envSpoof : Env :=
  { envOK with
    get_structured_data := fun t => .ok [("fileName", "spoofed"), ("text", t)] }

/-- Like `envOK`, except writing `output.json` fails. -/
def envPersistFail : Env :=
  { envOK with persistError := some "disk full" }

/-- Empty uploads directory, artifact in its wiped steady state. -/
def fs0 : FS := ⟨[], "[]"⟩

def filesAB : List UploadedFile := [⟨"A.pdf", [1]⟩, ⟨"B.pdf", [2]⟩]

def filesOne : List UploadedFile := [⟨"A.pdf", [3]⟩]

def fileOK1 : UploadedFile := ⟨"ok.pdf", [1]⟩
def fileBad : UploadedFile := ⟨"bad.pdf", [2]⟩
def fileLater : UploadedFile := ⟨"later.pdf", [3]⟩

/-- Claim C7 is false on this code: two files sharing the name `a.pdf` but
holding different bytes `[1]` and `[2]` do NOT process the same bytes twice.
Each staged copy is deleted in the `finally` block before the next file is
staged, so with an extractor that returns the staged bytes verbatim the two
records come out different — the first derives from `[1]`, the second from
`[2]`, refuting "both records derive from the same staged content". -/
theorem claim_C7_counterexample :
    (handleRequest envOK fs0 [⟨"a.pdf", [1]⟩, ⟨"a.pdf", [2]⟩]).outcome =
      .success [[("text", "[1]"), ("fileName", "a.pdf")],
                [("text", "[2]"), ("fileName", "a.pdf")]] ∧
    dictLookup [("text", "[1]"), ("fileName", "a.pdf")] "text" ≠
      dictLookup [("text", "[2]"), ("fileName", "a.pdf")] "text" := by
  exact ⟨by decide, by decide⟩

/-- Claim C7 (amended): two files sharing a name are staged to the same
path, the later write replacing whatever sits there; but since each file's
staged copy is deleted before the next file is staged and extraction runs
immediately after staging, each record derives from its own file's content —
the two files process the same bytes only if their contents are equal. -/
theorem claim_C7_amended_same_name (env : Env) (fs : FS)
    (f1 f2 : UploadedFile) (hname : f1.filename = f2.filename)
    (h1 : fileFailure env f1 = none) (h2 : fileFailure env f2 = none)
    (hp : env.persistError = none) :
    stagedPath f1 = stagedPath f2 ∧
    (handleRequest env fs [f1, f2]).outcome =
      .success [expectedRecord env f1, expectedRecord env f2] := by
  refine ⟨by simp [stagedPath, hname], ?_⟩
  have hok : ∀ g ∈ [f1, f2], fileFailure env g = none := by
    intro g hg
    rcases List.mem_cons.mp hg with rfl | hg
    · exact h1
    · rcases List.mem_cons.mp hg with rfl | hg
      · exact h2
      · simp at hg
  obtain ⟨hres, -⟩ := processLoop_ok env [f1, f2] hok fs
  unfold handleRequest
  rcases hrec : processLoop env fs [f1, f2] with ⟨fs1, ev, res⟩
  rw [hrec] at hres
  simp only at hres
  subst hres
  simp [hp]

/-! ### Concrete witnesses -/

/-- Witness for C1 at a two-file batch. -/
theorem claim_C1_witness :
    (handleRequest envOK fs0 filesAB).outcome =
      .success (filesAB.map (expectedRecord envOK)) ∧
    (filesAB.map (expectedRecord envOK)).length = filesAB.length ∧
    ∀ i (h : i < filesAB.length),
      dictLookup (expectedRecord envOK (filesAB.get ⟨i, h⟩)) "fileName" =
        some (filesAB.get ⟨i, h⟩).filename :=
  claim_C1_success_batch envOK fs0 filesAB (by decide) (by decide) rfl

/-- Witness for C2: the staged copy of a file whose staging failed is gone. -/
theorem claim_C2_witness :
    (handleRequest envFail fs0 [fileBad]).fs.lookup "uploads/bad.pdf" = none :=
  claim_C2_temp_files_deleted envFail fs0 [fileBad] "uploads/bad.pdf" (by decide)

/-- Witness for C3: `ok.pdf` succeeds, `bad.pdf` fails staging, `later.pdf`
is never touched. -/
theorem claim_C3_witness :
    (handleRequest envFail fs0 ([fileOK1] ++ fileBad :: [fileLater])).outcome =
      .httpError 500
        ("Error while processing " ++ fileBad.filename ++ ": " ++ "boom") ∧
    (handleRequest envFail fs0 ([fileOK1] ++ fileBad :: [fileLater])).trace =
      stageEvents ([fileOK1] ++ [fileBad]) ++ [.sendResponse] :=
  claim_C3_fail_fast envFail fs0 [fileOK1] fileBad [fileLater] "boom"
    (by decide) (by decide)

/-- Witness for C4: a failing one-file batch leaves the artifact alone. -/
theorem claim_C4_witness :
    (handleRequest envFail fs0 [fileBad]).fs.output = fs0.output ∧
    ∀ s, Event.persistOutput s ∉ (handleRequest envFail fs0 [fileBad]).trace :=
  claim_C4_output_untouched_on_failure envFail fs0 [fileBad]
    ⟨fileBad, by decide, by decide⟩

/-- Witness for C5 at a successful one-file batch. -/
theorem claim_C5_witness :
    ∃ pre, (handleRequest envOK fs0 filesOne).trace =
        pre ++ [.persistOutput (serializeBatch [[("text", "[3]"),
            ("fileName", "A.pdf")]]),
          .scheduleWipe, .sendResponse, .runWipe] ∧
      pre.all Event.isFileOp = true :=
  (claim_C5_persist_then_respond_then_wipe envOK fs0 filesOne).1
    [[("text", "[3]"), ("fileName", "A.pdf")]] (by decide)

/-- Witness for C6. -/
theorem claim_C6_witness :
    (handleRequest envOK fs0 []).outcome = .success [] ∧
    Event.persistOutput "[]" ∈ (handleRequest envOK fs0 []).trace ∧
    (handleRequest envOK fs0 []).fs.output = "[]" :=
  claim_C6_empty_batch envOK fs0 rfl

/-- Witness for the amended C7 at two same-named files with distinct bytes. -/
theorem claim_C7_witness :
    stagedPath ⟨"a.pdf", [1]⟩ = stagedPath ⟨"a.pdf", [2]⟩ ∧
    (handleRequest envOK fs0 [⟨"a.pdf", [1]⟩, ⟨"a.pdf", [2]⟩]).outcome =
      .success [expectedRecord envOK ⟨"a.pdf", [1]⟩,
        expectedRecord envOK ⟨"a.pdf", [2]⟩] :=
  claim_C7_amended_same_name envOK fs0 ⟨"a.pdf", [1]⟩ ⟨"a.pdf", [2]⟩ rfl
    (by decide) (by decide) rfl

/-- Witness for C9 with a structurer that itself emits a `fileName` field:
the spoofed value is gone from the produced record. -/
theorem claim_C9_witness :
    dictLookup [("fileName", "A.pdf"), ("text", "[1]")] "fileName" =
      some "A.pdf" ∧
    ∀ q ∈ ([("fileName", "A.pdf"), ("text", "[1]")] : Record),
      q.1 = "fileName" → q.2 = "A.pdf" :=
  claim_C9_fileName_overwritten envSpoof fs0 ⟨"A.pdf", [1]⟩ fs0
    [Event.stageFile "uploads/A.pdf", Event.deleteTemp "uploads/A.pdf"]
    [("fileName", "A.pdf"), ("text", "[1]")] (by rfl)

/-- Witness for C10: the batch succeeds per file, the artifact write fails. -/
theorem claim_C10_witness :
    (handleRequest envPersistFail fs0 filesOne).outcome =
      .serverError "disk full" ∧
    (∀ s, Event.persistOutput s ∉
      (handleRequest envPersistFail fs0 filesOne).trace) ∧
    Event.scheduleWipe ∉ (handleRequest envPersistFail fs0 filesOne).trace ∧
    Event.runWipe ∉ (handleRequest envPersistFail fs0 filesOne).trace :=
  claim_C10_persist_failure envPersistFail fs0 filesOne "disk full"
    (by decide) rfl
